import Mathlib

/-!
# Verification of the airobo-trainer scoring and attention core

Shallow embedding of `airobo_trainer/models/scoring_system.py` and
`airobo_trainer/models/bci_core.py` (class `AttentionCalculator`), together
with theorems settling the specification claims about them.

Modelling conventions:
* `datetime` timestamps are natural numbers; each Python `datetime.now()`
  call site becomes an explicit time parameter of the embedded operation.
* Python `int` intention values are `ℤ`; averages (Python `float` division
  of small integer sums, which is exact here) are `ℚ`.
* File and console I/O is outside the embedding; the leaderboard file's
  parsed content is modelled explicitly for the loading-policy claims.
-/

namespace AiroboTrainer

/-! ## Scoring system data model (`scoring_system.py`) -/

/-- One element of `ScoringSystem.intention_history`:
a `(timestamp, left_intention, right_intention)` triple. -/
structure IntentionSample where
  ts : ℕ
  left : ℤ
  right : ℤ
deriving Repr, DecidableEq

/-- One element of `ScoringSystem.instruction_periods`: the dict
`{'start', 'end', 'mode', 'avg_intention', 'points'}` appended by
`change_instruction`.  The `end` key is rendered `stop` (Lean keyword). -/
structure Period where
  start : ℕ
  stop : ℕ
  mode : String
  avg_intention : ℚ
  points : ℤ
deriving Repr, DecidableEq

/-- The mutable per-session state of `ScoringSystem` (the leaderboard is
kept separately, see below, since no claim couples the two). -/
structure ScoringState where
  current_score : ℤ
  instruction_periods : List Period
  current_period_start : Option ℕ
  current_mode : String
  intention_history : List IntentionSample
deriving Repr, DecidableEq

/-- State right after `ScoringSystem.__init__` (leaderboard aside). -/
def mk_scoring : ScoringState :=
  { current_score := 0
    instruction_periods := []
    current_period_start := none
    current_mode := "relax"
    intention_history := [] }

/-- `ScoringSystem.start_experiment`, with `now` the `datetime.now()` value. -/
def start_experiment (now : ℕ) (_s : ScoringState) : ScoringState :=
  { current_score := 0
    instruction_periods := []
    current_period_start := some now
    current_mode := "relax"
    intention_history := [] }

/-- `ScoringSystem.update_intention`, with `now` the `datetime.now()` value. -/
def update_intention (now : ℕ) (l r : ℤ) (s : ScoringState) : ScoringState :=
  { s with intention_history := s.intention_history ++ [⟨now, l, r⟩] }

/-- The `should_award_points` boolean expression of
`ScoringSystem.change_instruction` (lines 110–114). -/
def should_award_points (current new : String) : Bool :=
  (current == "relax" && (new == "left" || new == "right")) ||
  ((current == "left" || current == "right") &&
    (new == "left" || new == "right") && current != new) ||
  ((current == "left" || current == "right") && new == "relax")

/-- The `period_intentions` list built by the loop at lines 121–126 of
`change_instruction` (and again at lines 186–191 of `end_experiment`):
for each history entry with timestamp in `[t0, t1]`, the left value if
`mode == "left"`, the right value if `mode == "right"`, nothing otherwise. -/
def period_intentions (mode : String) (t0 t1 : ℕ) (hist : List IntentionSample) :
    List ℤ :=
  hist.filterMap fun e =>
    if t0 ≤ e.ts ∧ e.ts ≤ t1 then
      if mode == "left" then some e.left
      else if mode == "right" then some e.right
      else none
    else none

/-- `sum(xs) / len(xs)` over a list of integers, as an exact rational. -/
def avgZ (xs : List ℤ) : ℚ := (xs.sum : ℚ) / xs.length

/-- `sum(xs) / len(xs)` over a list of rationals. -/
def avgQ (xs : List ℚ) : ℚ := xs.sum / xs.length

/-- `ScoringSystem._calculate_points` (lines 146–167). -/
def calculate_points (avg_intention : ℚ) : ℤ :=
  if 90 ≤ avg_intention then 100
  else if 80 ≤ avg_intention then 75
  else if 70 ≤ avg_intention then 50
  else if 60 ≤ avg_intention then 25
  else if 50 ≤ avg_intention then 10
  else 0

/-- `ScoringSystem.change_instruction` (lines 96–144).  `tEnd` is the
`datetime.now()` of line 119 (`end_time`, read only on the scoring path)
and `tNew` the `datetime.now()` of line 144 (the new period's start). -/
def change_instruction (tEnd tNew : ℕ) (new_mode : String) (s : ScoringState) :
    ScoringState :=
  match s.current_period_start with
  | none => s
  | some t0 =>
    let s1 :=
      if should_award_points s.current_mode new_mode then
        let vals := period_intentions s.current_mode t0 tEnd s.intention_history
        if vals.isEmpty then s
        else
          let avg := avgZ vals
          let pts := calculate_points avg
          { s with
              current_score := s.current_score + pts
              instruction_periods := s.instruction_periods ++
                [⟨t0, tEnd, s.current_mode, avg, pts⟩] }
      else s
    { s1 with current_mode := new_mode, current_period_start := some tNew }

/-- The `all_left_right_intentions` list built by the loop at lines
177–195 of `end_experiment`: for each recorded left/right period, the mean
of that side's history values falling in `[start, end]`, skipping periods
with no such values. -/
def lr_period_means (hist : List IntentionSample) (ps : List Period) : List ℚ :=
  ps.filterMap fun p =>
    if p.mode == "left" || p.mode == "right" then
      let vals := period_intentions p.mode p.start p.stop hist
      if vals.isEmpty then none else some (avgZ vals)
    else none

/-- `ScoringSystem.end_experiment` (lines 169–204): returns the updated
state together with the returned final score. -/
def end_experiment (s : ScoringState) : ScoringState × ℤ :=
  let means := lr_period_means s.intention_history s.instruction_periods
  let s' :=
    if means.isEmpty then s
    else if 90 < avgQ means then
      { s with current_score := s.current_score + 200 }
    else s
  (s', s'.current_score)

/-! ## Leaderboard (`scoring_system.py`, `ScoreEntry` / `submit_score`) -/

/-- `ScoreEntry` as held in memory: score, player name, creation time. -/
structure ScoreEntry where
  score : ℤ
  name : String
  timestamp : ℕ
deriving Repr, DecidableEq

/-- The comparison `submit_score` sorts by: `sort(key=score, reverse=True)`,
i.e. descending score.  Python's sort is stable; so is `List.insertionSort`,
so the two agree on every input. -/
def scoreGE (a b : ScoreEntry) : Prop := b.score ≤ a.score

instance : DecidableRel scoreGE := fun a b => Int.decLe b.score a.score

instance : IsTotal ScoreEntry scoreGE := ⟨fun a b => le_total b.score a.score⟩

instance : IsTrans ScoreEntry scoreGE := ⟨fun _ _ _ h1 h2 => le_trans h2 h1⟩

/-- `ScoringSystem.submit_score` (lines 210–233): appends the new entry,
sorts descending by score, keeps the top 10, and returns the new
leaderboard (which line 230 writes wholesale to disk — the file write
itself is I/O outside the embedding) together with the returned boolean.
Python's `entry in self.leaderboard` compares by object identity; it
coincides with the structural membership used here whenever the fresh
entry is structurally distinct from every stored one, which the theorems'
hypotheses guarantee. -/
def submit_score (now : ℕ) (name : String) (current_score : ℤ)
    (leaderboard : List ScoreEntry) : List ScoreEntry × Bool :=
  let entry : ScoreEntry := ⟨current_score, name, now⟩
  let sorted := List.insertionSort scoreGE (leaderboard ++ [entry])
  let newLb := sorted.take 10
  (newLb, decide (entry ∈ newLb))

/-! ## Leaderboard file loading (`_load_leaderboard` / `ScoreEntry.from_dict`)

The loading path runs stdlib code (`json.load`, dict subscripting,
`datetime.fromisoformat`) whose exception behaviour decides claim C8, so
the parsed JSON value and the Python exceptions are modelled explicitly. -/

/-- A parsed JSON value (`json.load`'s result).  Numbers are modelled as
rationals; floats never reach the claims about loading. -/
inductive Json where
  | null : Json
  | bool (b : Bool) : Json
  | num (q : ℚ) : Json
  | str (s : String) : Json
  | arr (l : List Json) : Json
  | obj (kvs : List (String × Json)) : Json

/-- The Python exceptions reachable from `_load_leaderboard`'s `try` body. -/
inductive PyErr where
  | jsonDecodeError : PyErr
  | keyError : PyErr
  | typeError : PyErr
  | valueError : PyErr
deriving Repr, DecidableEq

/-- What `os.path.exists` + `json.load` can see of the leaderboard file. -/
inductive FileState where
  | missing : FileState
  | garbled : FileState
  | decoded (j : Json) : FileState

/-- Python iteration `for entry in data`: lists yield elements, strings
yield one-character strings, dicts yield their keys, other values raise
`TypeError`. -/
def pyIterate : Json → Except PyErr (List Json)
  | .arr l => .ok l
  | .str s => .ok (s.data.map fun c => .str (String.mk [c]))
  | .obj kvs => .ok (kvs.map fun kv => .str kv.1)
  | _ => .error .typeError

/-- Python subscripting `data[key]` with a string key: on a dict, the value
or `KeyError`; on anything else reachable here, `TypeError`. -/
def pySubscript : Json → String → Except PyErr Json
  | .obj kvs, k =>
    match kvs.find? (fun kv => kv.1 == k) with
    | some kv => .ok kv.2
    | none => .error .keyError
  | _, _ => .error .typeError

/-- Python `data.get(key, default)` on a dict (the only shape reaching it,
since `data["score"]` has already succeeded). -/
def pyGet (j : Json) (k : String) (dflt : Json) : Json :=
  match j with
  | .obj kvs =>
    match kvs.find? (fun kv => kv.1 == k) with
    | some kv => kv.2
    | none => dflt
  | _ => dflt

/-- Recogniser for the ISO-8601 shape this program writes
(`YYYY-MM-DDTHH:MM:SS` with an optional `.ffffff` fraction).
`datetime.fromisoformat` accepts further formats; the theorems only rely
on it rejecting strings that are not timestamps at all. -/
def isoShaped (s : String) : Bool :=
  let cs := s.data
  let head := cs.take 19
  let tail := cs.drop 19
  head.length = 19 &&
  (List.range 19).all (fun i =>
    match head.get? i with
    | some c =>
      if i = 4 ∨ i = 7 then c = '-'
      else if i = 10 then c = 'T'
      else if i = 13 ∨ i = 16 then c = ':'
      else c.isDigit
    | none => false) &&
  (tail.isEmpty ||
    (tail.length ≤ 7 && tail.take 1 = ['.'] && (tail.drop 1).all Char.isDigit))

/-- `datetime.fromisoformat(x)`: a non-string argument raises `TypeError`;
a string that is not a timestamp raises `ValueError`; an accepted string
parses to a time, modelled as the number formed by its digits. -/
def pyFromIso : Json → Except PyErr ℕ
  | .str s =>
    if isoShaped s then
      .ok ((s.data.filter Char.isDigit).foldl (fun n c => n * 10 + (c.toNat - 48)) 0)
    else .error .valueError
  | _ => .error .typeError

/-- An entry as actually built by `ScoreEntry.from_dict`: Python performs
no type checks, so `score` and `name` keep whatever JSON value the file
held, while the timestamp has been parsed. -/
structure RawEntry where
  score : Json
  name : Json
  timestamp : ℕ

/-- `ScoreEntry.from_dict` (lines 28–35), in evaluation order:
`data["score"]`, `data.get("name", "")`, `datetime.fromisoformat(data["timestamp"])`. -/
def from_dict (j : Json) : Except PyErr RawEntry := do
  let sc ← pySubscript j "score"
  let nm := pyGet j "name" (.str "")
  let tsj ← pySubscript j "timestamp"
  let ts ← pyFromIso tsj
  pure ⟨sc, nm, ts⟩

/-- The `try` body of `_load_leaderboard` (lines 64–66): decode, then build
one entry per element, stopping at the first exception. -/
def load_body (j : Json) : Except PyErr (List RawEntry) := do
  let l ← pyIterate j
  l.mapM from_dict

/-- `ScoringSystem._load_leaderboard` (lines 60–69): a missing file or a
`json.JSONDecodeError` / `KeyError` from the body yields the empty
leaderboard; any other exception propagates (`except` clause at line 67
names only those two exception types).  Construction (`__init__`) raises
exactly when this raises. -/
def load_leaderboard (fs : FileState) : Except PyErr (List RawEntry) :=
  match fs with
  | .missing => .ok []
  | .garbled => .ok []
  | .decoded j =>
    match load_body j with
    | .ok es => .ok es
    | .error e =>
      if e = .jsonDecodeError ∨ e = .keyError then .ok [] else .error e

/-! ## Attention calculator (`bci_core.py`, class `AttentionCalculator`) -/

/-- The three rolling channel buffers of `AttentionCalculator`
(`left_buffer`, `center_buffer`, `right_buffer`); sample values are exact
rationals standing for the Python floats. -/
structure CalcState where
  left_buffer : List ℚ
  center_buffer : List ℚ
  right_buffer : List ℚ
deriving Repr, DecidableEq

/-- `self.buffer_size = 1000` (line 24). -/
def buffer_size : ℕ := 1000

/-- State after `AttentionCalculator.__init__`. -/
def mk_calc : CalcState := ⟨[], [], []⟩

/-- `AttentionCalculator.add_sample` (lines 29–45): with at least three
values, append `eeg_data[0..2]` to the three buffers and pop each buffer's
head once the left buffer exceeds `buffer_size`; otherwise do nothing. -/
def add_sample (eeg_data : List ℚ) (s : CalcState) : CalcState :=
  match eeg_data with
  | a :: b :: c :: _ =>
    let l := s.left_buffer ++ [a]
    let cen := s.center_buffer ++ [b]
    let r := s.right_buffer ++ [c]
    if buffer_size < l.length then ⟨l.drop 1, cen.drop 1, r.drop 1⟩
    else ⟨l, cen, r⟩
  | _ => s

/-- Feed a sequence of raw samples to a fresh calculator. -/
def run_calc (inputs : List (List ℚ)) : CalcState :=
  inputs.foldl (fun s e => add_sample e s) mk_calc

/-- Python `int()` applied to a (here rational-valued) float: truncation
toward zero, never rounding. -/
def py_int (x : ℚ) : ℤ := if 0 ≤ x then ⌊x⌋ else ⌈x⌉

/-- `AttentionCalculator._calculate_motor_power` (lines 81–110): below 100
samples the power is 0; otherwise the buffer goes through the scipy
pipeline `butter(4, [8/nyq, 30/nyq], "band")` + `filtfilt` + RMS.  That
pipeline runs in IEEE-754 floating point inside scipy/numpy, so it is
taken as an abstract argument `bandRMS`; a raised numerical exception is
its `.error` result.  The two facts the theorems use about the real
pipeline are (a) an RMS is non-negative and (b) it either returns a value
or raises — exactly what the abstraction exposes. -/
def calculate_motor_power (bandRMS : List ℚ → Except Unit ℚ)
    (eeg_buffer : List ℚ) : Except Unit ℚ :=
  if eeg_buffer.length < 100 then .ok 0 else bandRMS eeg_buffer

/-- `AttentionCalculator.calculate_attention` (lines 47–79): neutral
`(50, 50)` below 100 samples; otherwise laterality from the two band
powers, mapped to clamped, truncated 0–100 integers, with any raised
exception caught and replaced by `(50, 50)`. -/
def calculate_attention (bandRMS : List ℚ → Except Unit ℚ) (s : CalcState) :
    ℤ × ℤ :=
  if s.left_buffer.length < 100 then (50, 50)
  else
    match calculate_motor_power bandRMS s.left_buffer with
    | .error _ => (50, 50)
    | .ok left_power =>
      match calculate_motor_power bandRMS s.right_buffer with
      | .error _ => (50, 50)
      | .ok right_power =>
        let laterality : ℚ :=
          if 0 < left_power + right_power then
            (right_power - left_power) / (left_power + right_power)
          else 0
        let left_attention := max 0 (min 100 (50 - laterality * 50))
        let right_attention := max 0 (min 100 (50 + laterality * 50))
        (py_int left_attention, py_int right_attention)

/-! Claim-side definitions (phrased from the specification's words, for
stating the claims against the source translations above). -/

/-- The spec's laterality formula: `(right − left) / (right + left)` when
the denominator is non-zero, else 0 (the source tests `0 <` instead). -/
def laterality_spec (left_power right_power : ℚ) : ℚ :=
  if left_power + right_power ≠ 0 then
    (right_power - left_power) / (left_power + right_power)
  else 0

/-- The spec's `clamp(x, 0, 100)`. -/
def clamp (x : ℚ) : ℚ := max 0 (min 100 x)

/-- The spec's reading of the scored values of a closing period: that
side's intention values over the entries with timestamp in the interval. -/
def side_values (mode : String) (t0 t1 : ℕ) (hist : List IntentionSample) :
    List ℤ :=
  (hist.filter fun e => t0 ≤ e.ts && e.ts ≤ t1).map
    fun e => if mode = "left" then e.left else e.right

/-- The spec's transition table: relax→{left,right}, left↔right,
{left,right}→relax. -/
def awarding_transition (current new : String) : Prop :=
  (current = "relax" ∧ (new = "left" ∨ new = "right")) ∨
  ((current = "left" ∧ new = "right") ∨ (current = "right" ∧ new = "left")) ∨
  ((current = "left" ∨ current = "right") ∧ new = "relax")

instance (current new : String) : Decidable (awarding_transition current new) := by
  unfold awarding_transition; infer_instance

/-! ## Runs of the scoring engine (for the refinement claim C4)

A run is `start_experiment` followed by a sequence of engine calls; each
call records the `datetime.now()` values it read.  A run is `valid` when
those clock readings strictly increase, which is how consecutive
`datetime.now()` calls behave whenever the clock resolution is fine
enough to separate them. -/

/-- One engine call together with the `datetime.now()` values it read. -/
inductive SEvent where
  | update (t : ℕ) (l r : ℤ) : SEvent
  | change (tEnd tNew : ℕ) (m : String) : SEvent
  | endexp : SEvent
deriving Repr, DecidableEq

/-- Apply one call to the state. -/
def stepEv (s : ScoringState) : SEvent → ScoringState
  | .update t l r => update_intention t l r s
  | .change tEnd tNew m => change_instruction tEnd tNew m s
  | .endexp => (end_experiment s).1

/-- Run a sequence of calls. -/
def runEvents (s : ScoringState) (tr : List SEvent) : ScoringState :=
  tr.foldl stepEv s

/-- The state in which a session starts: `start_experiment` at time `t0`. -/
def init_scoring (t0 : ℕ) : ScoringState := start_experiment t0 mk_scoring

/-- Clock readings strictly increase along the trace; `c` is the last
reading so far (the `start_experiment` time at the head of a run). -/
def validTrace : ℕ → List SEvent → Prop
  | _, [] => True
  | c, .update t _ _ :: es => c < t ∧ validTrace t es
  | c, .change tEnd tNew _ :: es => c < tEnd ∧ tEnd ≤ tNew ∧ validTrace tNew es
  | c, .endexp :: es => validTrace c es

instance : ∀ (c : ℕ) (tr : List SEvent), Decidable (validTrace c tr)
  | _, [] => .isTrue trivial
  | _, .update t _ _ :: es =>
    have := instDecidableValidTrace t es
    inferInstanceAs (Decidable (_ ∧ _))
  | _, .change _ tNew _ :: es =>
    have := instDecidableValidTrace tNew es
    inferInstanceAs (Decidable (_ ∧ _ ∧ _))
  | c, .endexp :: es => instDecidableValidTrace c es

/-! ## Theorems -/

/-- C2: `_calculate_points` is monotone non-decreasing in its argument and
implements the step table with inclusive lower bounds — `avg ≥ 90` gives
100 points, `≥ 80` gives 75, `≥ 70` gives 50, `≥ 60` gives 25, `≥ 50`
gives 10, otherwise 0; in particular `_calculate_points(89.9) = 75`,
`_calculate_points(90.0) = 100` and `_calculate_points(49.9) = 0`. -/
theorem calculate_points_spec :
    (∀ x y : ℚ, x ≤ y → calculate_points x ≤ calculate_points y) ∧
    (∀ x : ℚ, 90 ≤ x → calculate_points x = 100) ∧
    (∀ x : ℚ, 80 ≤ x → x < 90 → calculate_points x = 75) ∧
    (∀ x : ℚ, 70 ≤ x → x < 80 → calculate_points x = 50) ∧
    (∀ x : ℚ, 60 ≤ x → x < 70 → calculate_points x = 25) ∧
    (∀ x : ℚ, 50 ≤ x → x < 60 → calculate_points x = 10) ∧
    (∀ x : ℚ, x < 50 → calculate_points x = 0) ∧
    calculate_points (899 / 10) = 75 ∧
    calculate_points 90 = 100 ∧
    calculate_points (499 / 10) = 0 := by
  refine ⟨?_, ?_, ?_, ?_, ?_, ?_, ?_, ?_, ?_, ?_⟩
  · intro x y hxy
    unfold calculate_points
    split_ifs <;> linarith
  all_goals
    first
    | (intro x h1 h2; unfold calculate_points; split_ifs <;> linarith)
    | (intro x h1; unfold calculate_points; split_ifs <;> linarith)
    | (unfold calculate_points; norm_num)

/-- Witness for C2 at a concrete input. -/
theorem calculate_points_spec_witness :
    calculate_points 60 ≤ calculate_points 70 :=
  calculate_points_spec.1 60 70 (by norm_num)

/-- Auxiliary: one `add_sample` call keeps the three buffers of equal
length and within capacity. -/
theorem add_sample_preserves_shape (e : List ℚ) (s : CalcState)
    (h1 : s.left_buffer.length = s.center_buffer.length)
    (h2 : s.left_buffer.length = s.right_buffer.length)
    (h3 : s.left_buffer.length ≤ buffer_size) :
    (add_sample e s).left_buffer.length = (add_sample e s).center_buffer.length ∧
    (add_sample e s).left_buffer.length = (add_sample e s).right_buffer.length ∧
    (add_sample e s).left_buffer.length ≤ buffer_size := by
  rcases e with _ | ⟨a, _ | ⟨b, _ | ⟨c, rest⟩⟩⟩ <;>
    simp only [add_sample]
  · exact ⟨h1, h2, h3⟩
  · exact ⟨h1, h2, h3⟩
  · exact ⟨h1, h2, h3⟩
  · split_ifs with hlen <;>
      (simp only [List.length_drop, List.length_append, List.length_cons,
        List.length_nil] at hlen ⊢; omega)

/-- C10: under any sequence of `add_sample` calls the three channel
buffers keep equal lengths, each at most the capacity 1000; a call
arriving with the buffers at capacity evicts the oldest element of each
buffer (FIFO); and a call whose input holds fewer than three values leaves
the state completely unchanged. -/
theorem add_sample_spec :
    (∀ inputs : List (List ℚ),
      (run_calc inputs).left_buffer.length =
          (run_calc inputs).center_buffer.length ∧
      (run_calc inputs).left_buffer.length =
          (run_calc inputs).right_buffer.length ∧
      (run_calc inputs).left_buffer.length ≤ buffer_size) ∧
    (∀ (s : CalcState) (a b c : ℚ) (rest : List ℚ),
      s.left_buffer.length = s.center_buffer.length →
      s.left_buffer.length = s.right_buffer.length →
      s.left_buffer.length = buffer_size →
      add_sample (a :: b :: c :: rest) s =
        ⟨s.left_buffer.tail ++ [a], s.center_buffer.tail ++ [b],
          s.right_buffer.tail ++ [c]⟩) ∧
    (∀ (s : CalcState) (e : List ℚ), e.length < 3 → add_sample e s = s) := by
  refine ⟨?_, ?_, ?_⟩
  · intro inputs
    rw [run_calc]
    induction inputs using List.reverseRecOn with
    | nil => exact ⟨rfl, rfl, by norm_num [mk_calc, buffer_size]⟩
    | append_singleton xs e ih =>
      rw [List.foldl_append, List.foldl_cons, List.foldl_nil]
      exact add_sample_preserves_shape e _ ih.1 ih.2.1 ih.2.2
  · intro s a b c rest h1 h2 h3
    have hl : s.left_buffer ≠ [] := by
      intro hnil
      rw [hnil] at h3
      simp [buffer_size] at h3
    have hc : s.center_buffer ≠ [] := by
      intro hnil
      rw [hnil] at h1
      simp [buffer_size, h1] at h3
    have hr : s.right_buffer ≠ [] := by
      intro hnil
      rw [hnil] at h2
      simp [buffer_size, h2] at h3
    simp only [add_sample]
    rw [if_pos (by simp [List.length_append, h3])]
    congr 1
    · rw [List.drop_append_of_le_length
        (by have := List.length_pos.mpr hl; omega), List.drop_one]
    · rw [List.drop_append_of_le_length
        (by have := List.length_pos.mpr hc; omega), List.drop_one]
    · rw [List.drop_append_of_le_length
        (by have := List.length_pos.mpr hr; omega), List.drop_one]
  · intro s e he
    rcases e with _ | ⟨a, _ | ⟨b, _ | ⟨c, rest⟩⟩⟩ <;>
      first
      | rfl
      | (exfalso; simp only [List.length_cons] at he; omega)

/-- Witness for C10 at a concrete input: a two-value sample is a no-op. -/
theorem add_sample_spec_witness :
    add_sample [1, 2] mk_calc = mk_calc :=
  add_sample_spec.2.2 mk_calc [1, 2] (by norm_num)

/-- Auxiliary: the clamped value lies in `[0, 100]`, so its Python `int()`
truncation lies in `[0, 100]` as well. -/
theorem py_int_clamp_bounds (x : ℚ) :
    0 ≤ py_int (clamp x) ∧ py_int (clamp x) ≤ 100 := by
  have h0 : (0 : ℚ) ≤ clamp x := le_max_left 0 _
  have h100 : clamp x ≤ 100 :=
    max_le (by norm_num) (min_le_left 100 x)
  rw [py_int, if_pos h0]
  constructor
  · exact Int.le_floor.mpr (by exact_mod_cast h0)
  · calc ⌊clamp x⌋ ≤ ⌊(100 : ℚ)⌋ := Int.floor_le_floor h100
      _ = 100 := by norm_num

/-- C6: `calculate_attention` never lets an exception reach its caller:
with fewer than 100 samples per channel it returns exactly `(50, 50)`, and
whenever the band-power computation of either side raises, the exception
is caught and `(50, 50)` is returned.  (Totality itself is the type of the
embedded function; the conjuncts cover the two fallback paths.) -/
theorem calculate_attention_never_raises
    (bandRMS : List ℚ → Except Unit ℚ) (s : CalcState) :
    (s.left_buffer.length < 100 → calculate_attention bandRMS s = (50, 50)) ∧
    (∀ e, calculate_motor_power bandRMS s.left_buffer = .error e →
      calculate_attention bandRMS s = (50, 50)) ∧
    (∀ e, calculate_motor_power bandRMS s.right_buffer = .error e →
      calculate_attention bandRMS s = (50, 50)) := by
  refine ⟨?_, ?_, ?_⟩
  · intro h
    rw [calculate_attention, if_pos h]
  · intro e he
    rw [calculate_attention]
    split_ifs with h
    · rfl
    · rw [he]
  · intro e he
    rw [calculate_attention]
    split_ifs with h
    · rfl
    · rcases hl : calculate_motor_power bandRMS s.left_buffer with _ | lp
      · rfl
      · rw [he]

/-- Witness for C6: a failing band-power pipeline on full buffers still
yields the neutral pair. -/
theorem calculate_attention_never_raises_witness :
    calculate_attention (fun _ => .error ())
      ⟨List.replicate 100 0, List.replicate 100 0, List.replicate 100 0⟩ =
      (50, 50) :=
  (calculate_attention_never_raises (fun _ => .error ())
    ⟨List.replicate 100 0, List.replicate 100 0, List.replicate 100 0⟩).2.1 ()
    (by rw [calculate_motor_power, if_neg (by simp)])

/-- C5: with at least 100 samples per channel and band powers `lp`, `rp`
(each the non-negative band-pass-filtered RMS of its buffer, returned
without an exception), `calculate_attention` returns
`(int(clamp(50 − laterality·50)), int(clamp(50 + laterality·50)))` with
`laterality = (rp − lp)/(rp + lp)` when the denominator is non-zero and 0
otherwise; both components lie in `[0, 100]`; and the integer conversion
truncates rather than rounds (`py_int` truncates, e.g. `20.9 ↦ 20`). -/
theorem calculate_attention_formula
    (bandRMS : List ℚ → Except Unit ℚ) (s : CalcState) (lp rp : ℚ)
    (hlen : 100 ≤ s.left_buffer.length)
    (hl : calculate_motor_power bandRMS s.left_buffer = .ok lp)
    (hr : calculate_motor_power bandRMS s.right_buffer = .ok rp)
    (hlp : 0 ≤ lp) (hrp : 0 ≤ rp) :
    calculate_attention bandRMS s =
      (py_int (clamp (50 - laterality_spec lp rp * 50)),
        py_int (clamp (50 + laterality_spec lp rp * 50))) ∧
    0 ≤ (calculate_attention bandRMS s).1 ∧
    (calculate_attention bandRMS s).1 ≤ 100 ∧
    0 ≤ (calculate_attention bandRMS s).2 ∧
    (calculate_attention bandRMS s).2 ≤ 100 ∧
    py_int (209 / 10) = 20 := by
  have hmain : calculate_attention bandRMS s =
      (py_int (clamp (50 - laterality_spec lp rp * 50)),
        py_int (clamp (50 + laterality_spec lp rp * 50))) := by
    rw [calculate_attention, if_neg (by omega), hl, hr]
    have hcond : (0 < lp + rp) ↔ (lp + rp ≠ 0) := by
      constructor
      · intro h; exact ne_of_gt h
      · intro h; rcases lt_or_eq_of_le (by linarith : (0 : ℚ) ≤ lp + rp) with h' | h'
        · exact h'
        · exact absurd h'.symm h
    dsimp only
    rw [laterality_spec, clamp, clamp]
    by_cases h : lp + rp ≠ 0
    · rw [if_pos (hcond.mpr h), if_pos h]
    · rw [if_neg (fun h' => h (hcond.mp h')), if_neg h]
  refine ⟨hmain, ?_, ?_, ?_, ?_, ?_⟩
  · rw [hmain]; exact (py_int_clamp_bounds _).1
  · rw [hmain]; exact (py_int_clamp_bounds _).2
  · rw [hmain]; exact (py_int_clamp_bounds _).1
  · rw [hmain]; exact (py_int_clamp_bounds _).2
  · rw [py_int, if_pos (by norm_num)]
    norm_num [Int.floor_eq_iff]

/-- Witness for C5: equal powers on full buffers give the neutral pair. -/
theorem calculate_attention_formula_witness :
    calculate_attention (fun _ => .ok 1)
        ⟨List.replicate 100 0, List.replicate 100 0, List.replicate 100 0⟩ =
      (py_int (clamp (50 - laterality_spec 1 1 * 50)),
        py_int (clamp (50 + laterality_spec 1 1 * 50))) :=
  (calculate_attention_formula (fun _ => .ok 1)
    ⟨List.replicate 100 0, List.replicate 100 0, List.replicate 100 0⟩ 1 1
    (by simp)
    (by rw [calculate_motor_power, if_neg (by simp)])
    (by rw [calculate_motor_power, if_neg (by simp)])
    (by norm_num) (by norm_num)).1

/-- Auxiliary: the source's `should_award_points` guard, read as a
proposition. -/
theorem should_award_points_eq_true_iff (cur new : String) :
    should_award_points cur new = true ↔
      (cur = "relax" ∧ (new = "left" ∨ new = "right")) ∨
      ((cur = "left" ∨ cur = "right") ∧ (new = "left" ∨ new = "right") ∧
        cur ≠ new) ∨
      ((cur = "left" ∨ cur = "right") ∧ new = "relax") := by
  simp only [should_award_points, Bool.or_eq_true, Bool.and_eq_true,
    beq_iff_eq, bne_iff_ne, ne_eq]
  tauto

/-- Auxiliary: a same-mode transition is never awarded. -/
theorem should_award_points_self (m : String) :
    should_award_points m m = false := by
  by_cases h1 : m = "relax"
  · subst h1; decide
  by_cases h2 : m = "left"
  · subst h2; decide
  by_cases h3 : m = "right"
  · subst h3; decide
  simp [should_award_points, h1, h2, h3]

/-- Auxiliary: when the closing mode is left or right, the source's guard
agrees with the spec's transition table. -/
theorem should_award_iff_awarding (cur new : String)
    (hc : cur = "left" ∨ cur = "right") :
    should_award_points cur new = true ↔ awarding_transition cur new := by
  rw [should_award_points_eq_true_iff, awarding_transition]
  constructor
  · rintro (⟨h1, _⟩ | ⟨_, hn, hne⟩ | h)
    · rcases hc with h | h <;> rw [h] at h1 <;> exact absurd h1 (by decide)
    · rcases hc with h | h <;> rcases hn with h' | h' <;> subst h <;> subst h'
      · exact absurd rfl hne
      · exact Or.inr (Or.inl (Or.inl ⟨rfl, rfl⟩))
      · exact Or.inr (Or.inl (Or.inr ⟨rfl, rfl⟩))
      · exact absurd rfl hne
    · exact Or.inr (Or.inr h)
  · rintro (⟨h1, _⟩ | ⟨h | h⟩ | h)
    · rcases hc with h | h <;> rw [h] at h1 <;> exact absurd h1 (by decide)
    · exact Or.inr (Or.inl ⟨Or.inl h.1, Or.inr h.2, by rw [h.1, h.2]; decide⟩)
    · exact Or.inr (Or.inl ⟨Or.inr h.1, Or.inl h.2, by rw [h.1, h.2]; decide⟩)
    · exact Or.inr (Or.inr h)

/-- Auxiliary: the loop of `change_instruction` collects a non-empty
value list exactly when the closing mode is left or right and some
history entry falls in the window. -/
theorem period_intentions_ne_nil_iff (mode : String) (t0 t1 : ℕ)
    (hist : List IntentionSample) :
    period_intentions mode t0 t1 hist ≠ [] ↔
      (mode = "left" ∨ mode = "right") ∧
        ∃ e ∈ hist, t0 ≤ e.ts ∧ e.ts ≤ t1 := by
  rw [period_intentions, Ne, List.filterMap_eq_nil_iff]
  push_neg
  constructor
  · rintro ⟨e, he, hfe⟩
    by_cases hw : t0 ≤ e.ts ∧ e.ts ≤ t1
    · rw [if_pos hw] at hfe
      by_cases hl : mode = "left"
      · exact ⟨Or.inl hl, e, he, hw⟩
      by_cases hr : mode = "right"
      · exact ⟨Or.inr hr, e, he, hw⟩
      simp [hl, hr] at hfe
    · rw [if_neg hw] at hfe
      exact absurd rfl hfe
  · rintro ⟨hm, e, he, hw⟩
    refine ⟨e, he, ?_⟩
    rw [if_pos hw]
    rcases hm with h | h <;> subst h <;> simp

/-- Auxiliary: for a left/right closing mode, the loop of
`change_instruction` collects exactly the spec's side values. -/
theorem period_intentions_eq_side_values (mode : String) (t0 t1 : ℕ)
    (hist : List IntentionSample) (hm : mode = "left" ∨ mode = "right") :
    period_intentions mode t0 t1 hist = side_values mode t0 t1 hist := by
  induction hist with
  | nil => rfl
  | cons e tl ih =>
    by_cases h1 : t0 ≤ e.ts <;> by_cases h2 : e.ts ≤ t1 <;>
      rcases hm with h | h <;> subst h <;>
      simp_all [period_intentions, side_values, List.filterMap_cons,
        List.filter_cons]

/-- Auxiliary: the scoring path of `change_instruction`. -/
theorem change_instruction_scored (s : ScoringState) (t0 tEnd tNew : ℕ)
    (m : String) (hopen : s.current_period_start = some t0)
    (hsa : should_award_points s.current_mode m = true)
    (hne : period_intentions s.current_mode t0 tEnd s.intention_history ≠ []) :
    change_instruction tEnd tNew m s =
      { s with
          current_score := s.current_score +
            calculate_points
              (avgZ (period_intentions s.current_mode t0 tEnd s.intention_history))
          instruction_periods := s.instruction_periods ++
            [⟨t0, tEnd, s.current_mode,
              avgZ (period_intentions s.current_mode t0 tEnd s.intention_history),
              calculate_points
                (avgZ (period_intentions s.current_mode t0 tEnd s.intention_history))⟩]
          current_mode := m
          current_period_start := some tNew } := by
  unfold change_instruction
  rw [hopen]
  dsimp only
  rw [if_pos hsa, if_neg (by simp [List.isEmpty_iff, hne])]

/-- Auxiliary: the non-scoring path of `change_instruction`. -/
theorem change_instruction_unscored (s : ScoringState) (t0 tEnd tNew : ℕ)
    (m : String) (hopen : s.current_period_start = some t0)
    (h : should_award_points s.current_mode m = false ∨
      period_intentions s.current_mode t0 tEnd s.intention_history = []) :
    change_instruction tEnd tNew m s =
      { s with current_mode := m, current_period_start := some tNew } := by
  unfold change_instruction
  rw [hopen]
  dsimp only
  rcases h with h | h
  · rw [if_neg (by simp [h])]
  · by_cases hsa : should_award_points s.current_mode m = true
    · rw [if_pos hsa, h]
      simp
    · rw [if_neg hsa]

/-- C1: with an open period, `change_instruction(new_mode)` adds points
and appends a period record exactly when the transition is one of
relax→{left,right}, left↔right, {left,right}→relax, the closing mode is
left or right, and some intention-history entry's timestamp lies in
`[current_period_start, now]`; the points added equal `_calculate_points`
of the mean of the closing side's intention values over that interval.  A
same-mode transition never adds points, and closing a relax period never
appends a period record nor changes the score. -/
theorem change_instruction_awards_iff (s : ScoringState) (t0 tEnd tNew : ℕ)
    (m : String) (hopen : s.current_period_start = some t0) :
    (((change_instruction tEnd tNew m s).instruction_periods,
        (change_instruction tEnd tNew m s).current_score) =
      (s.instruction_periods ++
          [⟨t0, tEnd, s.current_mode,
            avgZ (side_values s.current_mode t0 tEnd s.intention_history),
            calculate_points
              (avgZ (side_values s.current_mode t0 tEnd s.intention_history))⟩],
        s.current_score +
          calculate_points
            (avgZ (side_values s.current_mode t0 tEnd s.intention_history))) ↔
      awarding_transition s.current_mode m ∧
        (s.current_mode = "left" ∨ s.current_mode = "right") ∧
        ∃ e ∈ s.intention_history, t0 ≤ e.ts ∧ e.ts ≤ tEnd) ∧
    (¬ (awarding_transition s.current_mode m ∧
        (s.current_mode = "left" ∨ s.current_mode = "right") ∧
        ∃ e ∈ s.intention_history, t0 ≤ e.ts ∧ e.ts ≤ tEnd) →
      (change_instruction tEnd tNew m s).instruction_periods =
          s.instruction_periods ∧
        (change_instruction tEnd tNew m s).current_score = s.current_score) ∧
    (m = s.current_mode →
      (change_instruction tEnd tNew m s).instruction_periods =
          s.instruction_periods ∧
        (change_instruction tEnd tNew m s).current_score = s.current_score) ∧
    (s.current_mode = "relax" →
      (change_instruction tEnd tNew m s).instruction_periods =
          s.instruction_periods ∧
        (change_instruction tEnd tNew m s).current_score = s.current_score) := by
  have hkey : (awarding_transition s.current_mode m ∧
      (s.current_mode = "left" ∨ s.current_mode = "right") ∧
      ∃ e ∈ s.intention_history, t0 ≤ e.ts ∧ e.ts ≤ tEnd) ↔
      (should_award_points s.current_mode m = true ∧
        period_intentions s.current_mode t0 tEnd s.intention_history ≠ []) := by
    constructor
    · rintro ⟨ha, hc, he⟩
      exact ⟨(should_award_iff_awarding _ _ hc).mpr ha,
        (period_intentions_ne_nil_iff _ _ _ _).mpr ⟨hc, he⟩⟩
    · rintro ⟨hsa, hne⟩
      obtain ⟨hc, he⟩ := (period_intentions_ne_nil_iff _ _ _ _).mp hne
      exact ⟨(should_award_iff_awarding _ _ hc).mp hsa, hc, he⟩
  have hunch : ∀ hu : should_award_points s.current_mode m = false ∨
      period_intentions s.current_mode t0 tEnd s.intention_history = [],
      (change_instruction tEnd tNew m s).instruction_periods =
          s.instruction_periods ∧
        (change_instruction tEnd tNew m s).current_score = s.current_score := by
    intro hu
    rw [change_instruction_unscored s t0 tEnd tNew m hopen hu]
    exact ⟨rfl, rfl⟩
  refine ⟨⟨?_, ?_⟩, ?_, ?_, ?_⟩
  · intro hpair
    rw [hkey]
    by_contra hn
    rw [not_and_or, Bool.not_eq_true, not_not] at hn
    obtain ⟨hps, _⟩ := hunch hn
    rw [hps] at hpair
    have hlen := congrArg List.length (congrArg Prod.fst hpair)
    simp at hlen
  · intro hcond
    obtain ⟨hsa, hne⟩ := hkey.mp hcond
    have hc := ((period_intentions_ne_nil_iff _ _ _ _).mp hne).1
    rw [change_instruction_scored s t0 tEnd tNew m hopen hsa hne,
      period_intentions_eq_side_values _ _ _ _ hc]
  · intro hn
    rw [hkey, not_and_or, Bool.not_eq_true, not_not] at hn
    exact hunch hn
  · intro hm
    subst hm
    exact hunch (Or.inl (should_award_points_self _))
  · intro hrel
    refine hunch (Or.inr ?_)
    by_contra hne
    rcases ((period_intentions_ne_nil_iff _ _ _ _).mp hne).1 with h | h <;>
      rw [hrel] at h <;> exact absurd h (by decide)

/-- Witness for C1: closing a left period holding one in-window entry of
left intention 80 on a left→relax transition appends the period record
and adds 75 points. -/
theorem change_instruction_awards_iff_witness :
    ((change_instruction 2 3 "relax"
        ⟨0, [], some 0, "left", [⟨1, 80, 20⟩]⟩).instruction_periods,
      (change_instruction 2 3 "relax"
        ⟨0, [], some 0, "left", [⟨1, 80, 20⟩]⟩).current_score) =
      ([] ++
          [⟨0, 2, "left", avgZ (side_values "left" 0 2 [⟨1, 80, 20⟩]),
            calculate_points (avgZ (side_values "left" 0 2 [⟨1, 80, 20⟩]))⟩],
        0 + calculate_points (avgZ (side_values "left" 0 2 [⟨1, 80, 20⟩]))) :=
  (change_instruction_awards_iff ⟨0, [], some 0, "left", [⟨1, 80, 20⟩]⟩
    0 2 3 "relax" rfl).1.mpr (by decide)

/-- C9 counterexample: a same-mode call (`left→left` at time 5 on a period
opened at time 0) changes the state — it resets `current_period_start` to
the call time — so it is not a complete no-op as claimed. -/
theorem change_instruction_same_mode_resets_start :
    (change_instruction 5 5 "left"
        ⟨0, [], some 0, "left", []⟩).current_period_start = some 5 ∧
      change_instruction 5 5 "left" ⟨0, [], some 0, "left", []⟩ ≠
        ⟨0, [], some 0, "left", []⟩ := by
  decide

/-- C9 amended: a `change_instruction` call whose `new_mode` equals the
current mode leaves the score, period history, intention history and mode
unchanged and appends no period record; but it is not a complete no-op:
when a period is open, `current_period_start` is reset to the call's time
(with no open period the call is a full no-op). -/
theorem change_instruction_same_mode (s : ScoringState) (tEnd tNew : ℕ) :
    change_instruction tEnd tNew s.current_mode s =
      { s with current_period_start :=
          s.current_period_start.map fun _ => tNew } := by
  obtain ⟨sc, ps, st, md, hi⟩ := s
  rcases st with _ | t0
  · rfl
  · rw [change_instruction_unscored _ t0 tEnd tNew _ rfl
      (Or.inl (should_award_points_self _))]
    rfl

/-- C3: `end_experiment` recomputes each recorded left/right period's mean
over `[start, end]` from the intention history, adds the flat +200 bonus
to the score exactly when at least one period mean exists and the grand
average of the period means strictly exceeds 90, returns the resulting
final score, and leaves the mode, the open-period start, the period
history and the intention history unchanged. -/
theorem end_experiment_spec (s : ScoringState) :
    ((end_experiment s).1.current_score = s.current_score +
      (if lr_period_means s.intention_history s.instruction_periods ≠ [] ∧
          90 < avgQ (lr_period_means s.intention_history s.instruction_periods)
        then 200 else 0)) ∧
    (end_experiment s).2 = (end_experiment s).1.current_score ∧
    (end_experiment s).1.current_mode = s.current_mode ∧
    (end_experiment s).1.current_period_start = s.current_period_start ∧
    (end_experiment s).1.instruction_periods = s.instruction_periods ∧
    (end_experiment s).1.intention_history = s.intention_history := by
  unfold end_experiment
  dsimp only
  by_cases h1 :
    (lr_period_means s.intention_history s.instruction_periods).isEmpty = true
  · rw [if_pos h1]
    simp [List.isEmpty_iff.mp h1]
  · rw [if_neg h1]
    have hne : lr_period_means s.intention_history s.instruction_periods ≠ [] := by
      simpa [List.isEmpty_iff] using h1
    by_cases h2 :
      90 < avgQ (lr_period_means s.intention_history s.instruction_periods)
    · rw [if_pos h2]
      simp [hne, h2]
    · rw [if_neg h2]
      simp [hne, h2]

/-- Run invariant for C4: all recorded timestamps are bounded by the last
clock reading, and every recorded left/right period's stored average
equals its recomputation from the current intention history. -/
def RunInv (c : ℕ) (s : ScoringState) : Prop :=
  (∀ e ∈ s.intention_history, e.ts ≤ c) ∧
  (∀ p ∈ s.instruction_periods, p.stop ≤ c) ∧
  (∀ p ∈ s.instruction_periods, (p.mode = "left" ∨ p.mode = "right") →
    period_intentions p.mode p.start p.stop s.intention_history ≠ [] ∧
    p.avg_intention =
      avgZ (period_intentions p.mode p.start p.stop s.intention_history))

/-- Auxiliary: appending a history entry with a timestamp beyond the
window does not change the collected period values. -/
theorem period_intentions_append_late (mode : String) (t0 t1 : ℕ)
    (hist : List IntentionSample) (e : IntentionSample) (he : t1 < e.ts) :
    period_intentions mode t0 t1 (hist ++ [e]) =
      period_intentions mode t0 t1 hist := by
  rw [period_intentions, period_intentions, List.filterMap_append]
  have : ¬ (t0 ≤ e.ts ∧ e.ts ≤ t1) := fun h => absurd h.2 (by omega)
  simp [this]

/-- Auxiliary: `end_experiment` changes neither the period history nor
the intention history. -/
theorem end_experiment_preserves_records (s : ScoringState) :
    (end_experiment s).1.instruction_periods = s.instruction_periods ∧
    (end_experiment s).1.intention_history = s.intention_history :=
  ⟨(end_experiment_spec s).2.2.2.2.1, (end_experiment_spec s).2.2.2.2.2⟩

/-- Auxiliary: the run invariant is preserved along any valid trace. -/
theorem runInv_preserved (tr : List SEvent) :
    ∀ (c : ℕ) (s : ScoringState), validTrace c tr → RunInv c s →
      ∃ c', RunInv c' (runEvents s tr) := by
  induction tr with
  | nil => exact fun c s _ h => ⟨c, h⟩
  | cons ev tl ih =>
    intro c s hval hinv
    obtain ⟨hts, hstop, havg⟩ := hinv
    match ev with
    | .update t l r =>
      obtain ⟨hct, hval'⟩ := hval
      refine ih t (update_intention t l r s) hval' ⟨?_, ?_, ?_⟩
      · intro e he
        rcases List.mem_append.mp he with h | h
        · exact le_trans (hts e h) (le_of_lt hct)
        · rw [List.mem_singleton.mp h]
      · intro p hp
        exact le_trans (hstop p hp) (le_of_lt hct)
      · intro p hp hm
        rw [update_intention]
        dsimp only
        rw [period_intentions_append_late p.mode p.start p.stop
          s.intention_history _ (by have := hstop p hp; dsimp only; omega)]
        exact havg p hp hm
    | .change tEnd tNew m =>
      obtain ⟨hc1, hc2, hval'⟩ := hval
      refine ih tNew (change_instruction tEnd tNew m s) hval' ?_
      rcases hst : s.current_period_start with _ | t0
      · have heq : change_instruction tEnd tNew m s = s := by
          unfold change_instruction
          rw [hst]
        rw [heq]
        refine ⟨fun e he => le_trans (hts e he) (by omega),
          fun p hp => le_trans (hstop p hp) (by omega), havg⟩
      · by_cases hscore : should_award_points s.current_mode m = true ∧
          period_intentions s.current_mode t0 tEnd s.intention_history ≠ []
        · rw [change_instruction_scored s t0 tEnd tNew m hst hscore.1 hscore.2]
          refine ⟨fun e he => le_trans (hts e he) (by omega), ?_, ?_⟩
          · intro p hp
            rcases List.mem_append.mp hp with h | h
            · exact le_trans (hstop p h) (by omega)
            · rw [List.mem_singleton.mp h]
              exact hc2
          · intro p hp hm
            rcases List.mem_append.mp hp with h | h
            · exact havg p h hm
            · rw [List.mem_singleton.mp h]
              exact ⟨hscore.2, rfl⟩
        · rw [not_and_or, Bool.not_eq_true, not_not] at hscore
          rw [change_instruction_unscored s t0 tEnd tNew m hst hscore]
          exact ⟨fun e he => le_trans (hts e he) (by omega),
            fun p hp => le_trans (hstop p hp) (by omega), havg⟩
    | .endexp =>
      refine ih c (end_experiment s).1 hval ?_
      obtain ⟨hp, hh⟩ := end_experiment_preserves_records s
      refine ⟨?_, ?_, ?_⟩
      · rw [hh]
        exact hts
      · rw [hp]
        exact hstop
      · intro p hmem hm
        rw [hp] at hmem
        rw [hh]
        exact havg p hmem hm

/-- C4: along every run (a `start_experiment` followed by engine calls
whose `datetime.now()` readings strictly increase), the `avg_intention`
stored in every recorded left/right period record at `change_instruction`
time equals the period mean recomputed — as `end_experiment` does — from
the intention-history entries of the final history lying in
`[start, end]`, entries appended after the period closed included. -/
theorem stored_avg_matches_end_recomputation (t0 : ℕ) (tr : List SEvent)
    (hval : validTrace t0 tr) (p : Period)
    (hp : p ∈ (runEvents (init_scoring t0) tr).instruction_periods)
    (hm : p.mode = "left" ∨ p.mode = "right") :
    period_intentions p.mode p.start p.stop
        (runEvents (init_scoring t0) tr).intention_history ≠ [] ∧
    p.avg_intention =
      avgZ (period_intentions p.mode p.start p.stop
        (runEvents (init_scoring t0) tr).intention_history) := by
  have hinit : RunInv t0 (init_scoring t0) := by
    refine ⟨?_, ?_, ?_⟩ <;> intro x hx <;> simp [init_scoring, start_experiment] at hx
  obtain ⟨c', _, _, havg⟩ := runInv_preserved tr t0 (init_scoring t0) hval hinit
  exact havg p hp hm

/-- A small concrete run exercising C4: relax→left, one intention sample,
left→right. -/
def demoTrace : List SEvent :=
  [.change 1 2 "left", .update 3 95 10, .change 4 5 "right"]

/-- The left period record that `demoTrace` produces. -/
def demoPeriod : Period :=
  ⟨2, 4, "left", avgZ (period_intentions "left" 2 4 [⟨3, 95, 10⟩]),
    calculate_points (avgZ (period_intentions "left" 2 4 [⟨3, 95, 10⟩]))⟩

/-- Witness for C4 on `demoTrace`: the recorded left period's stored
average matches the recomputation from the final history. -/
theorem stored_avg_matches_end_recomputation_witness :
    period_intentions "left" 2 4
        (runEvents (init_scoring 0) demoTrace).intention_history ≠ [] ∧
    demoPeriod.avg_intention =
      avgZ (period_intentions "left" 2 4
        (runEvents (init_scoring 0) demoTrace).intention_history) :=
  stored_avg_matches_end_recomputation 0 demoTrace (by decide) demoPeriod
    (by
      have h : (runEvents (init_scoring 0) demoTrace).instruction_periods =
          [demoPeriod] := rfl
      rw [h]
      exact List.mem_singleton.mpr rfl)
    (Or.inl rfl)

/-- Auxiliary for C7: when every stored score strictly exceeds the new
entry's, the descending sort puts the new entry last. -/
theorem insertionSort_strict_low_last (now : ℕ) (name : String) (cur : ℤ)
    (lb : List ScoreEntry) (hhigh : ∀ e ∈ lb, cur < e.score) :
    ∃ t1 : List ScoreEntry,
      List.insertionSort scoreGE (lb ++ [⟨cur, name, now⟩]) =
        t1 ++ [(⟨cur, name, now⟩ : ScoreEntry)] ∧ t1.Perm lb := by
  set entry : ScoreEntry := ⟨cur, name, now⟩ with hentry
  have hperm : List.Perm (List.insertionSort scoreGE (lb ++ [entry]))
      (lb ++ [entry]) :=
    List.perm_insertionSort scoreGE (lb ++ [entry])
  have hnotin : entry ∉ lb := by
    intro h
    exact absurd (hhigh entry h) (lt_irrefl cur)
  have hmem : entry ∈ List.insertionSort scoreGE (lb ++ [entry]) :=
    hperm.mem_iff.mpr (by simp)
  obtain ⟨t1, t2, hdecomp⟩ := List.append_of_mem hmem
  have hsorted : List.Sorted scoreGE (t1 ++ entry :: t2) := by
    rw [← hdecomp]
    exact List.sorted_insertionSort scoreGE (lb ++ [entry])
  have ht2 : t2 = [] := by
    rcases ht2e : t2 with _ | ⟨y, t2'⟩
    · rfl
    exfalso
    have hy_le : scoreGE entry y := by
      have := (List.pairwise_append.mp hsorted).2.1
      rw [ht2e] at this
      exact (List.pairwise_cons.mp this).1 y (by simp)
    have hy_mem : y ∈ lb ++ [entry] := by
      refine hperm.mem_iff.mp ?_
      rw [hdecomp, ht2e]
      simp
    rcases List.mem_append.mp hy_mem with h | h
    · have := hhigh y h
      have : y.score ≤ cur := hy_le
      omega
    · have hyeq : y = entry := List.mem_singleton.mp h
      have h1 : List.count entry (lb ++ [entry]) = 1 := by
        rw [List.count_append]
        simp [List.count_eq_zero.mpr hnotin]
      have h2 : List.count entry (List.insertionSort scoreGE (lb ++ [entry])) = 1 :=
        (hperm.count_eq entry).trans h1
      rw [hdecomp, ht2e, hyeq] at h2
      simp [List.count_append, List.count_cons] at h2
      omega
  subst ht2
  refine ⟨t1, hdecomp, ?_⟩
  have h1 : List.Perm (entry :: t1) (entry :: lb) :=
    (List.perm_append_singleton entry t1).symm.trans
      (hdecomp ▸ hperm |>.trans (List.perm_append_singleton entry lb))
  exact h1.cons_inv

/-- C7: `submit_score(name)` appends a `ScoreEntry` holding the current
score and name, re-sorts descending by score, truncates to at most 10
entries, and returns True exactly when the new entry survived truncation;
with a leaderboard already holding 10 entries all scoring strictly higher
than the current score, it returns False and the leaderboard's content is
unchanged (as a permutation — the 10 highest entries are kept). -/
theorem submit_score_spec :
    (∀ (now : ℕ) (name : String) (cur : ℤ) (lb : List ScoreEntry),
      (submit_score now name cur lb).1.length ≤ 10) ∧
    (∀ (now : ℕ) (name : String) (cur : ℤ) (lb : List ScoreEntry),
      List.Sorted scoreGE (submit_score now name cur lb).1) ∧
    (∀ (now : ℕ) (name : String) (cur : ℤ) (lb : List ScoreEntry),
      ((submit_score now name cur lb).2 = true ↔
        (⟨cur, name, now⟩ : ScoreEntry) ∈ (submit_score now name cur lb).1)) ∧
    (∀ (now : ℕ) (name : String) (cur : ℤ) (lb : List ScoreEntry),
      lb.length = 10 → (∀ e ∈ lb, cur < e.score) →
      (submit_score now name cur lb).2 = false ∧
        (submit_score now name cur lb).1.Perm lb) := by
  refine ⟨?_, ?_, ?_, ?_⟩
  · intro now name cur lb
    exact List.length_take_le 10 _
  · intro now name cur lb
    exact List.Pairwise.sublist (List.take_sublist 10 _)
      (List.sorted_insertionSort scoreGE _)
  · intro now name cur lb
    show decide ((⟨cur, name, now⟩ : ScoreEntry) ∈
        (List.insertionSort scoreGE (lb ++ [⟨cur, name, now⟩])).take 10) =
        true ↔ _
    exact decide_eq_true_iff
  · intro now name cur lb hlen hhigh
    obtain ⟨t1, hdecomp, hperm⟩ :=
      insertionSort_strict_low_last now name cur lb hhigh
    have ht1len : t1.length = 10 := hperm.length_eq.trans hlen
    have htake : (submit_score now name cur lb).1 = t1 := by
      show (List.insertionSort scoreGE (lb ++ [⟨cur, name, now⟩])).take 10 = t1
      rw [hdecomp]
      exact List.take_left' ht1len
    refine ⟨?_, htake ▸ hperm⟩
    show decide ((⟨cur, name, now⟩ : ScoreEntry) ∈
      (List.insertionSort scoreGE (lb ++ [⟨cur, name, now⟩])).take 10) = false
    refine decide_eq_false ?_
    intro hmem
    rw [show (List.insertionSort scoreGE (lb ++ [⟨cur, name, now⟩])).take 10 =
      t1 from htake] at hmem
    have : (⟨cur, name, now⟩ : ScoreEntry) ∈ lb := hperm.mem_iff.mp hmem
    exact absurd (hhigh _ this) (lt_irrefl cur)

/-- A full leaderboard of ten 100-point entries. -/
def demoBoard : List ScoreEntry :=
  (List.range 10).map fun i => ⟨100, "p", i⟩

/-- Witness for C7: submitting a score of 5 against `demoBoard` is
rejected and leaves its content unchanged. -/
theorem submit_score_spec_witness :
    (submit_score 99 "new" 5 demoBoard).2 = false ∧
      (submit_score 99 "new" 5 demoBoard).1.Perm demoBoard :=
  submit_score_spec.2.2.2 99 "new" 5 demoBoard (by decide)
    (by decide)

/-- C8 counterexample: a syntactically valid leaderboard file whose single
entry has an unparsable timestamp string makes `_load_leaderboard` — and
hence `ScoringEngine` construction — raise `ValueError`
(`datetime.fromisoformat` raises it and the `except` clause at line 67
catches only `json.JSONDecodeError` and `KeyError`), refuting the claim
that construction never raises for malformed files. -/
theorem load_leaderboard_raises_on_bad_timestamp :
    load_leaderboard
        (.decoded (.arr [.obj [("score", .num 1), ("name", .str "a"),
          ("timestamp", .str "not-a-date")]])) =
      .error .valueError := rfl

/-- C8 amended: construction is exception-free — yielding an empty
leaderboard — when the file is missing, when `json.load` fails, or when
building the entries raises `KeyError` (an entry object missing `score` or
`timestamp`); but any other exception from the entry-building body
propagates to the caller (in particular `ValueError` from an unparsable
timestamp string and `TypeError` from a non-object entry or non-string
timestamp), and those are the only exceptions that can escape. -/
theorem load_leaderboard_error_policy :
    load_leaderboard .missing = .ok [] ∧
    load_leaderboard .garbled = .ok [] ∧
    (∀ j : Json, load_body j = .error .keyError →
      load_leaderboard (.decoded j) = .ok []) ∧
    (∀ (j : Json) (e : PyErr), load_body j = .error e →
      e ≠ .jsonDecodeError → e ≠ .keyError →
      load_leaderboard (.decoded j) = .error e) ∧
    (∀ (j : Json) (es : List RawEntry), load_body j = .ok es →
      load_leaderboard (.decoded j) = .ok es) ∧
    (∀ (fs : FileState) (e : PyErr), load_leaderboard fs = .error e →
      e = .typeError ∨ e = .valueError) := by
  refine ⟨rfl, rfl, ?_, ?_, ?_, ?_⟩
  · intro j h
    rw [load_leaderboard, h]
    simp
  · intro j e h h1 h2
    rw [load_leaderboard, h]
    dsimp only
    rw [if_neg]
    simp [h1, h2]
  · intro j es h
    rw [load_leaderboard, h]
  · intro fs e h
    match fs with
    | .missing => exact absurd h (by simp [load_leaderboard])
    | .garbled => exact absurd h (by simp [load_leaderboard])
    | .decoded j =>
      rw [load_leaderboard] at h
      rcases hb : load_body j with e' | es
      · rw [hb] at h
        dsimp only at h
        by_cases hc : e' = PyErr.jsonDecodeError ∨ e' = PyErr.keyError
        · rw [if_pos hc] at h
          exact absurd h (by simp)
        · rw [if_neg hc] at h
          rw [not_or] at hc
          injection h with he
          subst he
          rcases hc with ⟨h1, h2⟩
          cases e' <;> simp_all
      · rw [hb] at h
        dsimp only at h
        exact absurd h (by simp)

/-- Witness for the amended C8: a decoded array whose single entry object
has no keys raises `KeyError`, which is caught, giving the empty
leaderboard. -/
theorem load_leaderboard_error_policy_witness :
    load_leaderboard (.decoded (.arr [.obj []])) = .ok [] :=
  load_leaderboard_error_policy.2.2.1 (.arr [.obj []]) rfl

end AiroboTrainer
